import Mathlib

/-!
Verification of `import_to_elastic.py` (bulk import pipeline) against its
specification.  The Python source is shallowly embedded: JSON values become
the inductive `JsonV` (with an extra `blob` constructor standing for a Python
object that `json.dumps` cannot serialize, so serialization is fallible and
returns `Option`), generators are materialized as lists, the HTTP layer is an
oracle `Request → HttpResult` passed to the orchestrator, and `SystemExit` /
propagated exceptions become an `Except RunError` result.
-/

namespace Omni

/-- A JSON-like Python value.  Numbers are modelled as integers (no claim
depends on float behaviour).  `blob` stands for a Python object that is not
JSON-serializable; `json.dumps` raises `TypeError` on it. -/
inductive JsonV where
  | null : JsonV
  | bool : Bool → JsonV
  | num : Int → JsonV
  | str : String → JsonV
  | arr : List JsonV → JsonV
  | obj : List (String × JsonV) → JsonV
  | blob : String → JsonV

/-- Python truthiness of a value: `None`, `False`, `0`, `""`, `[]`, `{}` are
falsy; a generic object (`blob`) is truthy. -/
def JsonV.truthy : JsonV → Bool
  | .null => false
  | .bool b => b
  | .num n => n != 0
  | .str s => s != ""
  | .arr xs => !xs.isEmpty
  | .obj fs => !fs.isEmpty
  | .blob _ => true

/-- A Python dict parsed from JSON: association list of fields. -/
abbrev Record : Type := List (String × JsonV)

/-- `doc.get(key)`: first binding of `key`, or `None` (here `none`) if absent. -/
def getField (doc : Record) (key : String) : Option JsonV :=
  match doc with
  | [] => none
  | (k, v) :: rest => if k = key then some v else getField rest key

/-- Hex digit character for `0 ≤ n < 16`. -/
def hexDigit (n : Nat) : Char :=
  if n < 10 then Char.ofNat (48 + n) else Char.ofNat (87 + n)

/-- Escaping of one character inside a JSON string literal, as `json.dumps`
with `ensure_ascii=False` does: only `"`, `\` and control characters are
escaped, everything else is kept verbatim. -/
def escChar (c : Char) : String :=
  if c = '"' then "\\\""
  else if c = '\\' then "\\\\"
  else if c = '\n' then "\\n"
  else if c = '\t' then "\\t"
  else if c = '\r' then "\\r"
  else if c = Char.ofNat 8 then "\\b"
  else if c = Char.ofNat 12 then "\\f"
  else if c.toNat < 32 then
    "\\u00" ++ String.singleton (hexDigit (c.toNat / 16)) ++ String.singleton (hexDigit (c.toNat % 16))
  else String.singleton c

/-- A JSON string literal: quotes around the escaped characters. -/
def encodeStr (s : String) : String :=
  "\"" ++ String.join (s.data.map escChar) ++ "\""

/-- `sep.join(parts)` in Python: parts interleaved with the separator. -/
def joinSep (sep : String) : List String → String
  | [] => ""
  | [x] => x
  | x :: y :: xs => x ++ sep ++ joinSep sep (y :: xs)

mutual
/-- `json.dumps(v, ensure_ascii=False)` with default separators `", "` and
`": "`.  Returns `none` (Python: raises `TypeError`) when the value contains
a non-serializable `blob`. -/
def dumps : JsonV → Option String
  | .null => some "null"
  | .bool b => some (if b then "true" else "false")
  | .num n => some (toString n)
  | .str s => some (encodeStr s)
  | .arr xs => (dumpsArr xs).map (fun ps => "[" ++ joinSep ", " ps ++ "]")
  | .obj fs => (dumpsObj fs).map (fun ps => "\x7b" ++ joinSep ", " ps ++ "\x7d")
  | .blob _ => none

/-- Serialization of the elements of a JSON array, failing if any element fails. -/
def dumpsArr : List JsonV → Option (List String)
  | [] => some []
  | v :: vs => do pure ((← dumps v) :: (← dumpsArr vs))

/-- Serialization of the fields of a JSON object (`"key": value` parts). -/
def dumpsObj : List (String × JsonV) → Option (List String)
  | [] => some []
  | (k, v) :: fs => do pure ((encodeStr k ++ ": " ++ (← dumps v)) :: (← dumpsObj fs))
end

/-- `doc.get("product_id") or doc.get("promotion_id")` followed by Python's
truthiness: the identity candidate used for `_id`.  Python `or` returns the
first operand when it is truthy, otherwise the second. -/
def docIdOf (doc : Record) : Option JsonV :=
  match getField doc "product_id" with
  | some v => if v.truthy then some v else getField doc "promotion_id"
  | none => getField doc "promotion_id"

/-- The action-metadata object for one document:
`{"index": {"_index": index_name}}`, with `"_id"` appended when the identity
candidate is truthy (`if doc_id:` in the source). -/
def bulkMeta (doc : Record) (indexName : String) : JsonV :=
  match docIdOf doc with
  | some v =>
      if v.truthy then .obj [("index", .obj [("_index", .str indexName), ("_id", v)])]
      else .obj [("index", .obj [("_index", .str indexName)])]
  | none => .obj [("index", .obj [("_index", .str indexName)])]

/-- The two lines one document contributes to the bulk body: serialized action
metadata followed by the serialized document. -/
def encodeDoc (doc : Record) (indexName : String) : Option (List String) := do
  pure [← dumps (bulkMeta doc indexName), ← dumps (.obj doc)]

/-- The per-document line pairs of a collection, in order; `none` as soon as
one document fails to serialize. -/
def encodeAll (indexName : String) : List Record → Option (List (List String))
  | [] => some []
  | doc :: rest => do pure ((← encodeDoc doc indexName) :: (← encodeAll indexName rest))

/-- `list(make_bulk_lines(actions, index_name))`: the generator materialized.
Yields the metadata line then the document line for each document in order;
a `TypeError` from `json.dumps` aborts the whole materialization (`none`). -/
def make_bulk_lines (actions : List Record) (indexName : String) : Option (List String) :=
  (encodeAll indexName actions).map List.flatten

/-- Helper loop of `chunked`: the accumulating `chunk` list, flushed as soon
as `len(chunk) >= size * 2`, with a trailing non-empty chunk flushed at the
end.  `size` is an `int` in the source, so it is `Int` here. -/
def chunkedAux (size : Int) : List α → List α → List (List α)
  | [], chunk => if chunk.isEmpty then [] else [chunk]
  | line :: rest, chunk =>
      let chunk' := chunk ++ [line]
      if (chunk'.length : Int) ≥ size * 2 then
        chunk' :: chunkedAux size rest []
      else
        chunkedAux size rest chunk'

/-- `list(chunked(iterable, size))`: groups the lines into chunks of
`size * 2` lines (two lines per document). -/
def chunked (size : Int) (iterable : List α) : List (List α) :=
  chunkedAux size iterable []

/-- `es_url.rstrip('/')`: drop every trailing slash. -/
def rstripSlash (s : String) : String :=
  s.dropRightWhile (fun c => c = '/')

/-- One HTTP POST as `send_bulk` builds it: URL, header list, NDJSON body and
the timeout handed to `requests.post`. -/
structure Request where
  url : String
  headers : List (String × String)
  body : String
  timeout : Nat


/-- The request for one batch: `{es_url.rstrip('/')}/_bulk`, NDJSON
content type, `ApiKey` authorization header, and the batch lines joined with
newlines plus a trailing newline. -/
def mkRequest (es_url api_key : String) (lines : List String) (timeout : Nat) : Request :=
  { url := rstripSlash es_url ++ "/_bulk"
    headers := [("Content-Type", "application/x-ndjson"),
                ("Authorization", "ApiKey " ++ api_key)]
    body := joinSep "\n" lines ++ "\n"
    timeout := timeout }

/-- Outcome of one `requests.post` call: either a raised
`requests.RequestException` (connection failure / timeout), or a response
with a status code, raw text body, and the decoded JSON object
(`response.json()`, modelled as the field list of a JSON object). -/
inductive HttpResult where
  | exn : String → HttpResult
  | resp : Nat → String → List (String × JsonV) → HttpResult

/-- How a run terminates abnormally: a `TypeError` from `json.dumps`
(propagates uncaught), a `requests.RequestException` (caught at top level as
"Network error during import"), or the `SystemExit` raised on an HTTP error
status. -/
inductive RunError where
  | serialization : RunError
  | network : String → RunError
  | httpStatus : String → RunError

/-- The message of the `SystemExit` raised when `response.raise_for_status()`
throws: `f"Bulk request failed: {exc}\n{response.text}"` — the raw response
body is appended after a newline (the `HTTPError` text itself is abbreviated
here to the status code). -/
def httpErrorMsg (status : Nat) (text : String) : String :=
  "Bulk request failed: " ++ toString status ++ "\n" ++ text

/-- `send_bulk`: build the request, hand it to the HTTP layer, and either
propagate a transport exception, abort on a 4xx/5xx status
(`raise_for_status` raises exactly for `400 ≤ status < 600`), or return the
decoded response.  The request that was issued is returned alongside so the
run's network trace can be observed. -/
def send_bulk (http : Request → HttpResult) (es_url api_key : String)
    (lines : List String) (timeout : Nat) :
    Request × Except RunError (List (String × JsonV)) :=
  let req := mkRequest es_url api_key lines timeout
  (req,
    match http req with
    | .exn msg => .error (.network msg)
    | .resp status text j =>
        if 400 ≤ status ∧ status < 600 then .error (.httpStatus (httpErrorMsg status text))
        else .ok j)

/-- `result.get("items", [])`: the per-item outcomes of one bulk response,
absent or non-array data counting as no items. -/
def responseItems (j : List (String × JsonV)) : List JsonV :=
  match getField j "items" with
  | some (.arr xs) => xs
  | _ => []

/-- `item.get("index", {}).get("error")` under `if`: an item counts as failed
when its `index` entry is an object whose `error` value is truthy. -/
def itemFailed (item : JsonV) : Bool :=
  match item with
  | .obj fs =>
      match getField fs "index" with
      | some (.obj ifs) =>
          match getField ifs "error" with
          | some v => v.truthy
          | none => false
      | _ => false
  | _ => false

/-- Mutable state of the two send loops in `import_documents`: the network
trace (every request handed to `requests.post`), `batches_sent`, and the
accumulated `errors` list of response items. -/
structure LoopState where
  requests : List Request
  batches_sent : Nat
  errors : List JsonV


/-- One `for batch in chunked(...)` loop of `import_documents`: send each
batch in order; a transport error stops the loop (and the whole run) at that
batch, otherwise count the batch and extend `errors` with the response's
items. -/
def runBatches (http : Request → HttpResult) (es_url api_key : String) (timeout : Nat) :
    List (List String) → LoopState → LoopState × Option RunError
  | [], st => (st, none)
  | batch :: rest, st =>
      match send_bulk http es_url api_key batch timeout with
      | (req, .error e) => ({ st with requests := st.requests ++ [req] }, some e)
      | (req, .ok result) =>
          runBatches http es_url api_key timeout rest
            { requests := st.requests ++ [req]
              batches_sent := st.batches_sent + 1
              errors := st.errors ++ responseItems result }

/-- The dataset argument: `dataset.get("products", [])` and
`dataset.get("promotions", [])` — each collection may be absent. -/
structure Dataset where
  products? : Option (List Record)
  promotions? : Option (List Record)

/-- What a successful run prints: the batch count and the failed items
(of which `json.dumps(failed[:5], ...)` is shown as a sample). -/
structure RunSummary where
  batches_sent : Nat
  failed : List JsonV


/-- The printed sample: the first five failed items. -/
def RunSummary.sample (s : RunSummary) : List JsonV :=
  s.failed.take 5

/-- The promotions collection as `import_documents` computes it:
`dataset.get("promotions", []) if not skip_promotions else []`. -/
def promotionsOf (dataset : Dataset) (skip_promotions : Bool) : List Record :=
  if skip_promotions then [] else dataset.promotions?.getD []

/-- The promotion lines as `import_documents` computes them:
`list(make_bulk_lines(promotions, promotions_index)) if promotions else []`. -/
def promotionLinesOf (dataset : Dataset) (promotions_index : String) (skip_promotions : Bool) :
    Option (List String) :=
  if (promotionsOf dataset skip_promotions).isEmpty then some []
  else make_bulk_lines (promotionsOf dataset skip_promotions) promotions_index

/-- `import_documents`: materialize both collections' bulk lines, then send
the product batches and the promotion batches sequentially, then classify the
accumulated items.  Returns the full network trace together with either the
run error that aborted the run (no summary is printed then) or the printed
summary. -/
def import_documents (http : Request → HttpResult) (dataset : Dataset)
    (es_url api_key products_index promotions_index : String)
    (chunk_size : Int) (timeout : Nat) (skip_promotions : Bool) :
    List Request × Except RunError RunSummary :=
  match make_bulk_lines (dataset.products?.getD []) products_index with
  | none => ([], .error .serialization)
  | some product_lines =>
      match promotionLinesOf dataset promotions_index skip_promotions with
      | none => ([], .error .serialization)
      | some promotion_lines =>
          match runBatches http es_url api_key timeout (chunked chunk_size product_lines)
              ⟨[], 0, []⟩ with
          | (st, some e) => (st.requests, .error e)
          | (st, none) =>
              match runBatches http es_url api_key timeout (chunked chunk_size promotion_lines) st with
              | (st', some e) => (st'.requests, .error e)
              | (st', none) =>
                  (st'.requests, .ok { batches_sent := st'.batches_sent
                                       failed := st'.errors.filter itemFailed })

/-! ## Batcher bridge lemmas

`chunked size` with `size * 2 = n > 0` behaves as grouping into blocks of
`n` consecutive elements.  The accumulator lemma characterizes `chunkedAux`
for any partial chunk shorter than `n`. -/

theorem chunkedAux_spec {α : Type _} (size : Int) (n : Nat) (hn : (n : Int) = size * 2) :
    ∀ (lines chunk : List α), chunk.length < n →
      chunkedAux size lines chunk =
        if chunk.length + lines.length < n then
          if (chunk ++ lines).isEmpty then [] else [chunk ++ lines]
        else
          (chunk ++ lines.take (n - chunk.length)) ::
            chunkedAux size (lines.drop (n - chunk.length)) [] := by
  intro lines
  induction lines with
  | nil =>
      intro chunk hc
      have h0 : chunk.length + ([] : List α).length < n := by simpa using hc
      rw [if_pos h0]
      simp only [chunkedAux, List.append_nil]
  | cons l rest ih =>
      intro chunk hc
      by_cases hflush : n ≤ chunk.length + 1
      · have hn1 : n = chunk.length + 1 := by omega
        have hcond : ((chunk ++ [l]).length : Int) ≥ size * 2 := by
          rw [← hn]
          exact_mod_cast (by simp; omega : n ≤ (chunk ++ [l]).length)
        have hge : ¬ chunk.length + (l :: rest).length < n := by
          simp only [List.length_cons]; omega
        have hsub : n - chunk.length = 1 := by omega
        simp only [chunkedAux]
        rw [if_pos hcond, if_neg hge, hsub]
        simp
      · have hlt : chunk.length + 1 < n := by omega
        have hcond : ¬ ((chunk ++ [l]).length : Int) ≥ size * 2 := by
          rw [← hn]
          intro hcontra
          have : n ≤ (chunk ++ [l]).length := by exact_mod_cast hcontra
          simp at this; omega
        simp only [chunkedAux]
        rw [if_neg hcond, ih (chunk ++ [l]) (by simp; omega)]
        by_cases hall : chunk.length + (l :: rest).length < n
        · have hall' : (chunk ++ [l]).length + rest.length < n := by
            simp only [List.length_cons] at hall; simp; omega
          rw [if_pos hall', if_pos hall]
          simp
        · have hall' : ¬ (chunk ++ [l]).length + rest.length < n := by
            simp only [List.length_cons] at hall; simp; omega
          rw [if_neg hall', if_neg hall]
          have hk : n - chunk.length = (n - (chunk ++ [l]).length) + 1 := by
            simp; omega
          rw [hk]
          simp [List.take_succ_cons, List.drop_succ_cons]


theorem chunked_nil {α : Type _} (size : Int) : chunked size ([] : List α) = [] := rfl

theorem chunked_small {α : Type _} (size : Int) (n : Nat) (hn : (n : Int) = size * 2)
    (lines : List α) (hne : lines ≠ []) (hlt : lines.length < n) :
    chunked size lines = [lines] := by
  have hpos : 0 < lines.length := List.length_pos.mpr hne
  unfold chunked
  rw [chunkedAux_spec size n hn lines [] (by simp; omega)]
  rw [if_pos (by simpa using hlt)]
  simp [List.isEmpty_iff, hne]

theorem chunked_step {α : Type _} (size : Int) (n : Nat) (hn : (n : Int) = size * 2)
    (hpos : 0 < n) (lines : List α) (hge : n ≤ lines.length) :
    chunked size lines = lines.take n :: chunked size (lines.drop n) := by
  unfold chunked
  rw [chunkedAux_spec size n hn lines [] (by simpa using hpos)]
  rw [if_neg (by simp; omega)]
  simp

/-- Round-trip: concatenating the chunks in order gives back the input. -/
theorem chunked_flatten {α : Type _} (size : Int) (n : Nat) (hn : (n : Int) = size * 2)
    (hpos : 0 < n) (lines : List α) :
    (chunked size lines).flatten = lines := by
  suffices h : ∀ N (lines : List α), lines.length ≤ N → (chunked size lines).flatten = lines by
    exact h lines.length lines le_rfl
  intro N
  induction N with
  | zero =>
      intro lines hlen
      have : lines = [] := List.length_eq_zero.mp (by omega)
      subst this; rfl
  | succ N ih =>
      intro lines hlen
      rcases eq_or_ne lines [] with rfl | hne
      · rfl
      · by_cases hlt : lines.length < n
        · rw [chunked_small size n hn lines hne hlt]; simp
        · rw [chunked_step size n hn hpos lines (by omega), List.flatten_cons,
            ih (lines.drop n) (by simp; omega)]
          exact List.take_append_drop n lines

/-- The number of chunks is `⌈length / n⌉`. -/
theorem chunked_length {α : Type _} (size : Int) (n : Nat) (hn : (n : Int) = size * 2)
    (hpos : 0 < n) (lines : List α) :
    (chunked size lines).length = (lines.length + n - 1) / n := by
  suffices h : ∀ N (lines : List α), lines.length ≤ N →
      (chunked size lines).length = (lines.length + n - 1) / n by
    exact h lines.length lines le_rfl
  intro N
  induction N with
  | zero =>
      intro lines hlen
      have : lines = [] := List.length_eq_zero.mp (by omega)
      subst this
      simp [chunked_nil, Nat.div_eq_of_lt (by omega : n - 1 < n)]
  | succ N ih =>
      intro lines hlen
      rcases eq_or_ne lines [] with rfl | hne
      · simp [chunked_nil, Nat.div_eq_of_lt (by omega : n - 1 < n)]
      · have hpl : 0 < lines.length := List.length_pos.mpr hne
        by_cases hlt : lines.length < n
        · have hdiv : (lines.length + n - 1) / n = 1 :=
            Nat.div_eq_of_lt_le (by omega) (by omega)
          rw [chunked_small size n hn lines hne hlt, List.length_singleton, hdiv]
        · rw [chunked_step size n hn hpos lines (by omega), List.length_cons,
            ih (lines.drop n) (by simp; omega), List.length_drop]
          have e1 : lines.length - n + n - 1 = lines.length - 1 := by omega
          have e2 : lines.length + n - 1 = lines.length - 1 + n := by omega
          rw [e1, e2, Nat.add_div_right _ hpos]

/-- The `i`-th chunk is the `i`-th block of `n` consecutive input elements
(optional-indexing form). -/
theorem chunked_getElem? {α : Type _} (size : Int) (n : Nat) (hn : (n : Int) = size * 2)
    (hpos : 0 < n) (lines : List α) :
    ∀ (i : Nat), i < (chunked size lines).length →
      (chunked size lines)[i]? = some ((lines.drop (n * i)).take n) := by
  suffices h : ∀ N (lines : List α), lines.length ≤ N →
      ∀ (i : Nat), i < (chunked size lines).length →
        (chunked size lines)[i]? = some ((lines.drop (n * i)).take n) by
    exact h lines.length lines le_rfl
  intro N
  induction N with
  | zero =>
      intro lines hlen i hi
      have : lines = [] := List.length_eq_zero.mp (by omega)
      subst this
      rw [chunked_nil] at hi
      simp at hi
  | succ N ih =>
      intro lines hlen i hi
      rcases eq_or_ne lines [] with rfl | hne
      · rw [chunked_nil] at hi; simp at hi
      · by_cases hlt : lines.length < n
        · have hone : chunked size lines = [lines] := chunked_small size n hn lines hne hlt
          rw [hone] at hi ⊢
          simp only [List.length_singleton] at hi
          have : i = 0 := by omega
          subst this
          simp [List.take_of_length_le (le_of_lt hlt)]
        · have hstep := chunked_step size n hn hpos lines (by omega)
          rw [hstep] at hi ⊢
          match i with
          | 0 => simp
          | j + 1 =>
              simp only [List.getElem?_cons_succ]
              rw [ih (lines.drop n) (by simp; omega) j (by simpa using hi)]
              rw [List.drop_drop]
              congr 3
              ring

/-- The `i`-th chunk is the `i`-th block of `n` consecutive input elements. -/
theorem chunked_getElem {α : Type _} (size : Int) (n : Nat) (hn : (n : Int) = size * 2)
    (hpos : 0 < n) (lines : List α) (i : Nat) (h : i < (chunked size lines).length) :
    (chunked size lines)[i] = (lines.drop (n * i)).take n := by
  have h2 := chunked_getElem? size n hn hpos lines i h
  rw [List.getElem?_eq_getElem h] at h2
  exact Option.some.inj h2
/-- Degenerate batching: with `size ≤ 0` the flush threshold `size * 2 ≤ 0`
is met by every freshly appended line, so every chunk is a singleton. -/
theorem chunked_nonpos {α : Type _} (size : Int) (hsz : size ≤ 0) (lines : List α) :
    chunked size lines = lines.map (fun l => [l]) := by
  unfold chunked
  induction lines with
  | nil => rfl
  | cons l rest ih =>
      simp only [chunkedAux]
      rw [if_pos (by simp; omega)]
      rw [ih]
      rfl

/-! ## Line Encoder lemmas -/

/-- A successful `encodeDoc` yields exactly the action line then the body line. -/
theorem encodeDoc_eq {doc : Record} {indexName : String} {p : List String}
    (h : encodeDoc doc indexName = some p) :
    ∃ m b, dumps (bulkMeta doc indexName) = some m ∧ dumps (.obj doc) = some b ∧ p = [m, b] := by
  unfold encodeDoc at h
  cases hm : dumps (bulkMeta doc indexName) with
  | none => rw [hm] at h; simp [Option.bind] at h
  | some m =>
      cases hb : dumps (.obj doc) with
      | none => rw [hm, hb] at h; simp [Option.bind] at h
      | some b =>
          rw [hm, hb] at h
          simp [Option.bind] at h
          exact ⟨m, b, rfl, rfl, h.symm⟩

/-- Every pair produced by `encodeDoc` has exactly two lines. -/
theorem encodeDoc_length {doc : Record} {indexName : String} {p : List String}
    (h : encodeDoc doc indexName = some p) : p.length = 2 := by
  obtain ⟨m, b, _, _, rfl⟩ := encodeDoc_eq h
  rfl

theorem encodeAll_cons {indexName : String} {doc : Record} {rest : List Record} :
    encodeAll indexName (doc :: rest) =
      (encodeDoc doc indexName).bind (fun p => (encodeAll indexName rest).map (p :: ·)) := by
  cases hp : encodeDoc doc indexName with
  | none => simp [encodeAll, hp, Option.bind]
  | some p =>
      cases hr : encodeAll indexName rest with
      | none => simp [encodeAll, hp, hr, Option.bind]
      | some ps => simp [encodeAll, hp, hr, Option.bind]

/-- A successful encoding has one pair per document. -/
theorem encodeAll_length {indexName : String} :
    ∀ {recs : List Record} {ps : List (List String)},
      encodeAll indexName recs = some ps → ps.length = recs.length := by
  intro recs
  induction recs with
  | nil => intro ps h; simp [encodeAll] at h; simp [← h]
  | cons doc rest ih =>
      intro ps h
      rw [encodeAll_cons] at h
      cases hp : encodeDoc doc indexName with
      | none => rw [hp] at h; simp at h
      | some p =>
          rw [hp] at h
          cases hr : encodeAll indexName rest with
          | none => rw [hr] at h; simp at h
          | some qs =>
              rw [hr] at h
              simp at h
              rw [← h]
              simp [ih hr]

/-- Every pair of a successful encoding has exactly two lines. -/
theorem encodeAll_pairs {indexName : String} :
    ∀ {recs : List Record} {ps : List (List String)},
      encodeAll indexName recs = some ps → ∀ p ∈ ps, p.length = 2 := by
  intro recs
  induction recs with
  | nil => intro ps h; simp [encodeAll] at h; subst h; simp
  | cons doc rest ih =>
      intro ps h
      rw [encodeAll_cons] at h
      cases hp : encodeDoc doc indexName with
      | none => rw [hp] at h; simp at h
      | some p =>
          rw [hp] at h
          cases hr : encodeAll indexName rest with
          | none => rw [hr] at h; simp at h
          | some qs =>
              rw [hr] at h
              simp at h
              rw [← h]
              intro q hq
              rcases List.mem_cons.mp hq with rfl | hq'
              · exact encodeDoc_length hp
              · exact ih hr q hq'

/-- Encoding commutes with `take`: the first `k` documents' pairs. -/
theorem encodeAll_take {indexName : String} :
    ∀ {recs : List Record} {ps : List (List String)} (k : Nat),
      encodeAll indexName recs = some ps →
      encodeAll indexName (recs.take k) = some (ps.take k) := by
  intro recs
  induction recs with
  | nil => intro ps k h; simp [encodeAll] at h; subst h; simp [encodeAll]
  | cons doc rest ih =>
      intro ps k h
      rw [encodeAll_cons] at h
      cases hp : encodeDoc doc indexName with
      | none => rw [hp] at h; simp at h
      | some p =>
          rw [hp] at h
          cases hr : encodeAll indexName rest with
          | none => rw [hr] at h; simp at h
          | some qs =>
              rw [hr] at h
              simp at h
              subst h
              match k with
              | 0 => simp [encodeAll]
              | k + 1 =>
                  simp only [List.take_succ_cons]
                  rw [encodeAll_cons, hp, ih k hr]
                  rfl

/-- Encoding commutes with `drop`: the pairs of the remaining documents. -/
theorem encodeAll_drop {indexName : String} :
    ∀ {recs : List Record} {ps : List (List String)} (k : Nat),
      encodeAll indexName recs = some ps →
      encodeAll indexName (recs.drop k) = some (ps.drop k) := by
  intro recs
  induction recs with
  | nil => intro ps k h; simp [encodeAll] at h; subst h; simp [encodeAll]
  | cons doc rest ih =>
      intro ps k h
      rw [encodeAll_cons] at h
      cases hp : encodeDoc doc indexName with
      | none => rw [hp] at h; simp at h
      | some p =>
          rw [hp] at h
          cases hr : encodeAll indexName rest with
          | none => rw [hr] at h; simp at h
          | some qs =>
              rw [hr] at h
              simp at h
              subst h
              match k with
              | 0 => rw [List.drop_zero, List.drop_zero, encodeAll_cons, hp, hr]; rfl
              | k + 1 => simpa using ih k hr

/-- Flattening lists of pairs has twice as many elements. -/
theorem flatten_pairs_length {ps : List (List String)} (h : ∀ p ∈ ps, p.length = 2) :
    ps.flatten.length = 2 * ps.length := by
  induction ps with
  | nil => rfl
  | cons p rest ih =>
      simp only [List.flatten_cons, List.length_append, List.length_cons]
      rw [h p (List.mem_cons_self p rest), ih (fun q hq => h q (List.mem_cons_of_mem p hq))]
      ring

/-- `take` of an even prefix of a flattened pair list takes whole pairs. -/
theorem flatten_pairs_take {ps : List (List String)} (h : ∀ p ∈ ps, p.length = 2) :
    ∀ k, ps.flatten.take (2 * k) = (ps.take k).flatten := by
  induction ps with
  | nil => intro k; simp
  | cons p rest ih =>
      intro k
      match k with
      | 0 => simp
      | k + 1 =>
          have hp : p.length = 2 := h p (List.mem_cons_self p rest)
          simp only [List.flatten_cons, List.take_succ_cons]
          rw [List.take_append_eq_append_take]
          have e1 : 2 * (k + 1) - p.length = 2 * k := by omega
          have e2 : p.take (2 * (k + 1)) = p := List.take_of_length_le (by omega)
          rw [e1, e2, ih (fun q hq => h q (List.mem_cons_of_mem p hq)) k]

/-- `drop` of an even prefix of a flattened pair list drops whole pairs. -/
theorem flatten_pairs_drop {ps : List (List String)} (h : ∀ p ∈ ps, p.length = 2) :
    ∀ k, ps.flatten.drop (2 * k) = (ps.drop k).flatten := by
  induction ps with
  | nil => intro k; simp
  | cons p rest ih =>
      intro k
      match k with
      | 0 => simp
      | k + 1 =>
          have hp : p.length = 2 := h p (List.mem_cons_self p rest)
          simp only [List.flatten_cons, List.drop_succ_cons]
          rw [List.drop_append_eq_append_drop]
          have e1 : 2 * (k + 1) - p.length = 2 * k := by omega
          have e2 : p.drop (2 * (k + 1)) = [] := List.drop_eq_nil_of_le (by omega)
          rw [e1, e2, ih (fun q hq => h q (List.mem_cons_of_mem p hq)) k, List.nil_append]

/-! ## Transport / orchestrator lemmas -/

/-- Whether one `requests.post` outcome makes `send_bulk` abort: a raised
exception, or a status `raise_for_status` raises on. -/
def sendFails : HttpResult → Bool
  | .exn _ => true
  | .resp status _ _ => decide (400 ≤ status ∧ status < 600)

/-- The `RunError` a failing `send_bulk` call produces. -/
def sendError : HttpResult → RunError
  | .exn msg => .network msg
  | .resp status text _ => .httpStatus (httpErrorMsg status text)

/-- The decoded body of a response (irrelevant for exceptions). -/
def respJson : HttpResult → List (String × JsonV)
  | .exn _ => []
  | .resp _ _ j => j

/-- The per-item outcomes one batch's response contributes. -/
def batchItems (http : Request → HttpResult) (es_url api_key : String) (timeout : Nat)
    (b : List String) : List JsonV :=
  responseItems (respJson (http (mkRequest es_url api_key b timeout)))

theorem send_bulk_eq (http : Request → HttpResult) (es_url api_key : String)
    (lines : List String) (timeout : Nat) :
    send_bulk http es_url api_key lines timeout =
      (mkRequest es_url api_key lines timeout,
       if sendFails (http (mkRequest es_url api_key lines timeout)) then
         .error (sendError (http (mkRequest es_url api_key lines timeout)))
       else .ok (respJson (http (mkRequest es_url api_key lines timeout)))) := by
  unfold send_bulk sendFails sendError respJson
  cases h : http (mkRequest es_url api_key lines timeout) with
  | exn msg => simp [h]
  | resp status text j =>
      by_cases hc : 400 ≤ status ∧ status < 600
      · simp [h, hc]
      · simp [h, hc]

/-- A loop over batches that all succeed sends every batch once, in order,
counts each, and appends each response's items in order. -/
theorem runBatches_ok (http : Request → HttpResult) (es_url api_key : String) (timeout : Nat) :
    ∀ (batches : List (List String)) (st : LoopState),
      (∀ b ∈ batches, sendFails (http (mkRequest es_url api_key b timeout)) = false) →
      runBatches http es_url api_key timeout batches st =
        ({ requests := st.requests ++ batches.map (fun b => mkRequest es_url api_key b timeout)
           batches_sent := st.batches_sent + batches.length
           errors := st.errors ++ (batches.map (batchItems http es_url api_key timeout)).flatten },
         none) := by
  intro batches
  induction batches with
  | nil => intro st _; simp [runBatches]
  | cons b rest ih =>
      intro st h
      have hb : sendFails (http (mkRequest es_url api_key b timeout)) = false := h b (by simp)
      simp only [runBatches]
      rw [send_bulk_eq, hb]
      simp only [Bool.false_eq_true, if_false]
      rw [ih _ (fun x hx => h x (List.mem_cons_of_mem b hx))]
      simp only [List.map_cons, List.flatten_cons, batchItems, List.length_cons,
        Prod.mk.injEq, LoopState.mk.injEq]
      refine ⟨⟨?_, ?_, ?_⟩, trivial⟩
      · simp [List.append_assoc]
      · omega
      · simp [List.append_assoc]

/-- A loop whose first failing batch is `bad` sends all earlier batches and
the failing one, counts only the earlier ones, keeps their items, and stops
with the failing call's error: the batches after `bad` are never sent. -/
theorem runBatches_err (http : Request → HttpResult) (es_url api_key : String) (timeout : Nat) :
    ∀ (pre : List (List String)) (bad : List String) (post : List (List String)) (st : LoopState),
      (∀ b ∈ pre, sendFails (http (mkRequest es_url api_key b timeout)) = false) →
      sendFails (http (mkRequest es_url api_key bad timeout)) = true →
      runBatches http es_url api_key timeout (pre ++ bad :: post) st =
        ({ requests := st.requests ++ pre.map (fun b => mkRequest es_url api_key b timeout) ++
             [mkRequest es_url api_key bad timeout]
           batches_sent := st.batches_sent + pre.length
           errors := st.errors ++ (pre.map (batchItems http es_url api_key timeout)).flatten },
         some (sendError (http (mkRequest es_url api_key bad timeout)))) := by
  intro pre
  induction pre with
  | nil =>
      intro bad post st _ hbad
      simp only [List.nil_append, runBatches]
      rw [send_bulk_eq, hbad]
      simp
  | cons b rest ih =>
      intro bad post st hok hbad
      have hb : sendFails (http (mkRequest es_url api_key b timeout)) = false := hok b (by simp)
      simp only [List.cons_append, runBatches]
      rw [send_bulk_eq, hb]
      simp only [Bool.false_eq_true, if_false, List.append_eq]
      rw [ih bad post _ (fun x hx => hok x (List.mem_cons_of_mem b hx)) hbad]
      simp only [List.map_cons, List.flatten_cons, batchItems, List.length_cons,
        Prod.mk.injEq, LoopState.mk.injEq]
      refine ⟨⟨?_, ?_, ?_⟩, trivial⟩
      · simp [List.append_assoc]
      · omega
      · simp [List.append_assoc]

/-- A loop whose very first batch fails: only that one request is made. -/
theorem runBatches_err_first (http : Request → HttpResult) (es_url api_key : String)
    (timeout : Nat) (bad : List String) (post : List (List String)) (st : LoopState)
    (hbad : sendFails (http (mkRequest es_url api_key bad timeout)) = true) :
    runBatches http es_url api_key timeout (bad :: post) st =
      ({ st with requests := st.requests ++ [mkRequest es_url api_key bad timeout] },
       some (sendError (http (mkRequest es_url api_key bad timeout)))) := by
  have h := runBatches_err http es_url api_key timeout [] bad post st (by simp) hbad
  simpa using h

/-- All per-item outcomes a sequence of successfully sent batches yields, in
submission order. -/
def runItems (http : Request → HttpResult) (es_url api_key : String) (timeout : Nat)
    (batches : List (List String)) : List JsonV :=
  (batches.map (batchItems http es_url api_key timeout)).flatten

/-- A fully successful run: every batch of both collections is sent once, in
order (products first), counted, and the accumulated items are filtered into
the summary. -/
theorem import_documents_ok (http : Request → HttpResult) (dataset : Dataset)
    (es_url api_key products_index promotions_index : String)
    (chunk_size : Int) (timeout : Nat) (skip_promotions : Bool)
    (pl ml : List String)
    (hp : make_bulk_lines (dataset.products?.getD []) products_index = some pl)
    (hm : promotionLinesOf dataset promotions_index skip_promotions = some ml)
    (hall : ∀ b ∈ chunked chunk_size pl ++ chunked chunk_size ml,
      sendFails (http (mkRequest es_url api_key b timeout)) = false) :
    import_documents http dataset es_url api_key products_index promotions_index
        chunk_size timeout skip_promotions =
      ((chunked chunk_size pl ++ chunked chunk_size ml).map
          (fun b => mkRequest es_url api_key b timeout),
       .ok { batches_sent := (chunked chunk_size pl).length + (chunked chunk_size ml).length
             failed := (runItems http es_url api_key timeout
               (chunked chunk_size pl ++ chunked chunk_size ml)).filter itemFailed }) := by
  unfold import_documents
  rw [hp, hm]
  dsimp only
  rw [runBatches_ok http es_url api_key timeout (chunked chunk_size pl) _
      (fun b hb => hall b (List.mem_append_left _ hb))]
  dsimp only
  rw [runBatches_ok http es_url api_key timeout (chunked chunk_size ml) _
      (fun b hb => hall b (List.mem_append_right _ hb))]
  unfold runItems
  simp [List.map_append, List.flatten_append]

/-- A run whose combined batch sequence has a first failing batch `bad`:
every batch before it is sent, `bad` itself is attempted, nothing after it is
sent, and the run ends in the failing call's error with no summary. -/
theorem import_documents_err (http : Request → HttpResult) (dataset : Dataset)
    (es_url api_key products_index promotions_index : String)
    (chunk_size : Int) (timeout : Nat) (skip_promotions : Bool)
    (pl ml : List String) (pre : List (List String)) (bad : List String)
    (post : List (List String))
    (hp : make_bulk_lines (dataset.products?.getD []) products_index = some pl)
    (hm : promotionLinesOf dataset promotions_index skip_promotions = some ml)
    (hsplit : chunked chunk_size pl ++ chunked chunk_size ml = pre ++ bad :: post)
    (hpre : ∀ b ∈ pre, sendFails (http (mkRequest es_url api_key b timeout)) = false)
    (hbad : sendFails (http (mkRequest es_url api_key bad timeout)) = true) :
    import_documents http dataset es_url api_key products_index promotions_index
        chunk_size timeout skip_promotions =
      (pre.map (fun b => mkRequest es_url api_key b timeout) ++
         [mkRequest es_url api_key bad timeout],
       .error (sendError (http (mkRequest es_url api_key bad timeout)))) := by
  unfold import_documents
  rw [hp, hm]
  dsimp only
  rcases List.append_eq_append_iff.mp hsplit with ⟨pre2, hpre2, hml2⟩ | ⟨mid, hpl2, hmid⟩
  · -- the failing batch lies in the promotions loop
    subst hpre2
    rw [runBatches_ok http es_url api_key timeout (chunked chunk_size pl) _
        (fun b hb => hpre b (List.mem_append_left _ hb))]
    dsimp only
    rw [hml2, runBatches_err http es_url api_key timeout pre2 bad post _
        (fun b hb => hpre b (List.mem_append_right _ hb)) hbad]
    simp [List.append_assoc]
  · -- `mid` is the part of the product batches from `bad` on (possibly empty)
    match mid, hpl2, hmid with
    | [], hpl2, hmid =>
        -- the products loop succeeds entirely and the promotions loop fails first
        rw [List.append_nil] at hpl2
        subst hpl2
        have hml3 : chunked chunk_size ml = bad :: post := by simpa using hmid.symm
        rw [runBatches_ok http es_url api_key timeout (chunked chunk_size pl) _ hpre]
        dsimp only
        rw [hml3, runBatches_err_first http es_url api_key timeout bad post _ hbad]
        simp
    | bad2 :: post1, hpl2, hmid =>
        -- the products loop fails at `bad`; the promotions loop never runs
        have hinj : bad = bad2 ∧ post = post1 ++ chunked chunk_size ml := by
          simp only [List.cons_append, List.cons.injEq] at hmid
          exact hmid
        obtain ⟨rfl, _⟩ := hinj
        rw [hpl2, runBatches_err http es_url api_key timeout pre bad post1 _ hpre hbad]
        simp

/-- A serialization failure in the products collection aborts before any
request. -/
theorem import_documents_serProducts (http : Request → HttpResult) (dataset : Dataset)
    (es_url api_key products_index promotions_index : String)
    (chunk_size : Int) (timeout : Nat) (skip_promotions : Bool)
    (h : make_bulk_lines (dataset.products?.getD []) products_index = none) :
    import_documents http dataset es_url api_key products_index promotions_index
        chunk_size timeout skip_promotions = ([], .error .serialization) := by
  unfold import_documents
  rw [h]

/-- A serialization failure in the promotions collection aborts before any
request, even when the products collection encodes fine. -/
theorem import_documents_serPromotions (http : Request → HttpResult) (dataset : Dataset)
    (es_url api_key products_index promotions_index : String)
    (chunk_size : Int) (timeout : Nat) (skip_promotions : Bool)
    (h : promotionLinesOf dataset promotions_index skip_promotions = none) :
    import_documents http dataset es_url api_key products_index promotions_index
        chunk_size timeout skip_promotions = ([], .error .serialization) := by
  unfold import_documents
  cases hp : make_bulk_lines (dataset.products?.getD []) products_index with
  | none => rfl
  | some pl => rw [h]

/-! ## Result Aggregator characterization -/

/-- The spec's wording of a failed item: the outcome record carries a
non-empty (truthy) error detail under the `index` operation key. -/
def failedSpecP (item : JsonV) : Prop :=
  ∃ fs ifs v, item = .obj fs ∧ getField fs "index" = some (.obj ifs) ∧
    getField ifs "error" = some v ∧ v.truthy = true

/-- The aggregator's test agrees with the spec's wording. -/
theorem itemFailed_iff (item : JsonV) : itemFailed item = true ↔ failedSpecP item := by
  cases item with
  | obj fs =>
      cases hIdx : getField fs "index" with
      | none => simp [itemFailed, hIdx, failedSpecP]
      | some w =>
          cases w with
          | obj ifs =>
              cases hErr : getField ifs "error" with
              | none => simp [itemFailed, hIdx, hErr, failedSpecP]
              | some v => simp [itemFailed, hIdx, hErr, failedSpecP]
          | null => simp [itemFailed, hIdx, failedSpecP]
          | bool b => simp [itemFailed, hIdx, failedSpecP]
          | num n => simp [itemFailed, hIdx, failedSpecP]
          | str s => simp [itemFailed, hIdx, failedSpecP]
          | arr xs => simp [itemFailed, hIdx, failedSpecP]
          | blob s => simp [itemFailed, hIdx, failedSpecP]
  | null => simp [itemFailed, failedSpecP]
  | bool b => simp [itemFailed, failedSpecP]
  | num n => simp [itemFailed, failedSpecP]
  | str s => simp [itemFailed, failedSpecP]
  | arr xs => simp [itemFailed, failedSpecP]
  | blob s => simp [itemFailed, failedSpecP]

/-! ## Line Encoder spec-side definitions -/

/-- The `_id` value an action-metadata object carries, if any. -/
def metaIdField (meta : JsonV) : Option JsonV :=
  match meta with
  | .obj fs =>
      match getField fs "index" with
      | some (.obj ifs) => getField ifs "_id"
      | _ => none
  | _ => none

/-- The identity the spec prescribes: check `product_id` first, then
`promotion_id`; the first non-empty (truthy) value wins; falsy or absent
fields yield no identity. -/
def identitySpec (doc : Record) : Option JsonV :=
  match getField doc "product_id" with
  | some v =>
      if v.truthy then some v
      else
        match getField doc "promotion_id" with
        | some w => if w.truthy then some w else none
        | none => none
  | none =>
      match getField doc "promotion_id" with
      | some w => if w.truthy then some w else none
      | none => none

/-- The `_id` actually emitted is exactly the spec's first-truthy-wins
identity. -/
theorem metaIdField_bulkMeta (doc : Record) (indexName : String) :
    metaIdField (bulkMeta doc indexName) = identitySpec doc := by
  unfold bulkMeta docIdOf identitySpec
  cases hp : getField doc "product_id" with
  | some v =>
      by_cases hv : v.truthy
      · simp [hv, metaIdField, getField]
      · simp only [hv, Bool.false_eq_true, if_false]
        cases hq : getField doc "promotion_id" with
        | some w =>
            by_cases hw : w.truthy
            · simp [hw, metaIdField, getField]
            · simp [hw, metaIdField, getField]
        | none => simp [metaIdField, getField]
  | none =>
      cases hq : getField doc "promotion_id" with
      | some w =>
          by_cases hw : w.truthy
          · simp [hw, metaIdField, getField]
          · simp [hw, metaIdField, getField]
      | none => simp [metaIdField, getField]

/-- Encoding a single document yields exactly its two lines. -/
theorem make_bulk_lines_single {doc : Record} {idx : String} {ls : List String}
    (h : make_bulk_lines [doc] idx = some ls) :
    ∃ m b, dumps (bulkMeta doc idx) = some m ∧ dumps (.obj doc) = some b ∧ ls = [m, b] := by
  unfold make_bulk_lines at h
  rw [encodeAll_cons] at h
  cases hp : encodeDoc doc idx with
  | none => rw [hp] at h; simp at h
  | some p =>
      rw [hp] at h
      simp [encodeAll] at h
      obtain ⟨m, b, hm, hb, rfl⟩ := encodeDoc_eq hp
      exact ⟨m, b, hm, hb, by simp [← h]⟩

/-- A completed send loop has made exactly as many new requests as it counted
batches. -/
theorem runBatches_count (http : Request → HttpResult) (es_url api_key : String) (timeout : Nat) :
    ∀ (batches : List (List String)) (st st' : LoopState),
      runBatches http es_url api_key timeout batches st = (st', none) →
      st'.requests.length + st.batches_sent = st.requests.length + st'.batches_sent := by
  intro batches
  induction batches with
  | nil =>
      intro st st' h
      simp [runBatches] at h
      rw [← h]
  | cons b rest ih =>
      intro st st' h
      simp only [runBatches] at h
      rw [send_bulk_eq] at h
      cases hf : sendFails (http (mkRequest es_url api_key b timeout)) with
      | true => rw [hf] at h; simp at h
      | false =>
          rw [hf] at h
          simp only [Bool.false_eq_true, if_false] at h
          have hrec := ih _ _ h
          simp only [List.length_append, List.length_singleton] at hrec
          omega

/-- Whenever a run completes with a summary, `batches_sent` equals the number
of requests actually issued. -/
theorem import_documents_count (http : Request → HttpResult) (dataset : Dataset)
    (es_url api_key products_index promotions_index : String)
    (chunk_size : Int) (timeout : Nat) (skip_promotions : Bool) (s : RunSummary)
    (h : (import_documents http dataset es_url api_key products_index promotions_index
            chunk_size timeout skip_promotions).2 = .ok s) :
    s.batches_sent = (import_documents http dataset es_url api_key products_index
        promotions_index chunk_size timeout skip_promotions).1.length := by
  unfold import_documents at h ⊢
  cases hp : make_bulk_lines (dataset.products?.getD []) products_index with
  | none => rw [hp] at h; exact Except.noConfusion h
  | some pl =>
      rw [hp] at h
      dsimp only at h
      cases hm : promotionLinesOf dataset promotions_index skip_promotions with
      | none => rw [hm] at h; exact Except.noConfusion h
      | some ml =>
          rw [hm] at h
          dsimp only at h
          cases h1 : runBatches http es_url api_key timeout (chunked chunk_size pl)
              ⟨[], 0, []⟩ with
          | mk st1 r1 =>
              cases r1 with
              | some e => rw [h1] at h; exact Except.noConfusion h
              | none =>
                  rw [h1] at h
                  dsimp only at h
                  cases h2 : runBatches http es_url api_key timeout (chunked chunk_size ml) st1 with
                  | mk st2 r2 =>
                      cases r2 with
                      | some e => rw [h2] at h; exact Except.noConfusion h
                      | none =>
                          rw [h2] at h
                          have hss := Except.ok.inj h
                          have c1 := runBatches_count http es_url api_key timeout _ _ _ h1
                          have c2 := runBatches_count http es_url api_key timeout _ _ _ h2
                          dsimp only
                          rw [h1]
                          dsimp only
                          rw [h2]
                          rw [← hss]
                          show st2.batches_sent = st2.requests.length
                          simp only [List.length_nil] at c1
                          omega

/-- Every element of a joined list occurs verbatim inside the join. -/
theorem joinSep_mem_split (sep : String) :
    ∀ (parts : List String) (x : String), x ∈ parts →
      ∃ s1 s2, joinSep sep parts = s1 ++ x ++ s2 := by
  intro parts
  induction parts with
  | nil => intro x hx; simp at hx
  | cons p rest ih =>
      intro x hx
      match rest with
      | [] =>
          have : x = p := by simpa using hx
          subst this
          exact ⟨"", "", by simp [joinSep, String.append_empty]⟩
      | q :: rest' =>
          rcases List.mem_cons.mp hx with rfl | hx'
          · refine ⟨"", sep ++ joinSep sep (q :: rest'), ?_⟩
            show joinSep sep (x :: q :: rest') = "" ++ x ++ (sep ++ joinSep sep (q :: rest'))
            rw [joinSep]
            rw [show "" ++ x = x from rfl, String.append_assoc]
          · obtain ⟨s1, s2, hs⟩ := ih x hx'
            refine ⟨p ++ sep ++ s1, s2, ?_⟩
            rw [joinSep, hs]
            simp [String.append_assoc]

/-- A serialized object is the brace-wrapped join of its field parts. -/
theorem dumps_obj_shape {fs : List (String × JsonV)} {b : String}
    (h : dumps (.obj fs) = some b) :
    ∃ parts, dumpsObj fs = some parts ∧ b = "\x7b" ++ joinSep ", " parts ++ "\x7d" := by
  rw [dumps] at h
  cases ho : dumpsObj fs with
  | none => rw [ho] at h; simp at h
  | some parts =>
      rw [ho] at h
      simp at h
      exact ⟨parts, rfl, h.symm⟩

/-- Each field of a serialized object contributes its `"key": value` part. -/
theorem dumpsObj_mem :
    ∀ {fs : List (String × JsonV)} {parts : List String},
      dumpsObj fs = some parts →
      ∀ {key : String} {val : JsonV}, (key, val) ∈ fs →
      ∀ {vs : String}, dumps val = some vs →
      (encodeStr key ++ ": " ++ vs) ∈ parts := by
  intro fs
  induction fs with
  | nil => intro parts _ key val hmem; simp at hmem
  | cons f rest ih =>
      intro parts h key val hmem vs hvs
      obtain ⟨k0, v0⟩ := f
      rw [dumpsObj] at h
      cases hv0 : dumps v0 with
      | none => rw [hv0] at h; simp [Option.bind] at h
      | some s0 =>
          rw [hv0] at h
          cases hr : dumpsObj rest with
          | none => rw [hr] at h; simp [Option.bind] at h
          | some ps0 =>
              rw [hr] at h
              simp [Option.bind] at h
              rcases List.mem_cons.mp hmem with heq | hmem'
              · have hk : k0 = key ∧ v0 = val := by
                  constructor
                  · exact (Prod.mk.injEq _ _ _ _ ▸ heq.symm).1
                  · exact (Prod.mk.injEq _ _ _ _ ▸ heq.symm).2
                obtain ⟨rfl, rfl⟩ := hk
                have : s0 = vs := by rw [hv0] at hvs; exact Option.some.inj hvs
                subst this
                rw [← h]
                exact List.mem_cons_self _ _
              · rw [← h]
                exact List.mem_cons_of_mem _ (ih hr hmem' hvs)

/-- A field found by `getField` is a field of the record. -/
theorem getField_mem :
    ∀ {doc : Record} {key : String} {v : JsonV}, getField doc key = some v → (key, v) ∈ doc := by
  intro doc
  induction doc with
  | nil => intro key v h; simp [getField] at h
  | cons f rest ih =>
      intro key v h
      obtain ⟨k0, v0⟩ := f
      rw [getField] at h
      by_cases hk : k0 = key
      · rw [if_pos hk] at h
        subst hk
        rw [Option.some.inj h]
        exact List.mem_cons_self _ _
      · rw [if_neg hk] at h
        exact List.mem_cons_of_mem _ (ih h)

/-! ## Concrete fixtures for witnesses and counterexamples -/

/-- A transport double that answers every request with `200 OK` and an empty
response object. -/
def httpOk : Request → HttpResult := fun _ => .resp 200 "" []

/-- A dataset holding a single empty product document and no promotions. -/
def ds1 : Dataset := ⟨some [[]], none⟩

/-- The encoded product lines of `ds1` (two lines: action and body). -/
def plOfDs1 : List String := (make_bulk_lines [[]] "p").getD []

/-- A transport double that answers every request with a `304` response. -/
def http304 : Request → HttpResult := fun _ => .resp 304 "\x7b\x7d" []

/-- A successful per-item outcome (no error detail). -/
def itemOkV : JsonV := .obj [("index", .obj [("status", .num 201)])]

/-- A failed per-item outcome: a non-empty error detail under `index`. -/
def itemErrV : JsonV :=
  .obj [("index", .obj [("error", .obj [("type", .str "mapper_parsing_exception")]),
    ("status", .num 400)])]

/-- A dataset with five empty product documents. -/
def ds5 : Dataset := ⟨some [[], [], [], [], []], none⟩

/-- The encoded product lines of `ds5` (ten lines). -/
def plOfDs5 : List String := (make_bulk_lines [[], [], [], [], []] "p").getD []

/-- A transport double whose every response reports items 1, 2, 4, 5 as
indexed and item 3 as failed. -/
def httpItems : Request → HttpResult :=
  fun _ => .resp 200 ""
    [("items", .arr [itemOkV, itemOkV, itemErrV, itemOkV, itemOkV])]

/-- A dataset with three distinct one-field product documents. -/
def ds3 : Dataset :=
  ⟨some [[("a", JsonV.num 1)], [("a", JsonV.num 2)], [("a", JsonV.num 3)]], none⟩

/-- The encoded product lines of `ds3` (six lines). -/
def plOfDs3 : List String :=
  (make_bulk_lines [[("a", JsonV.num 1)], [("a", JsonV.num 2)], [("a", JsonV.num 3)]]
    "p").getD []

/-- The `i`-th batch of `ds3` at `chunk_size = 1`. -/
def batch3 (i : Nat) : List String := (chunked (1 : Int) plOfDs3).getD i []

/-- A transport double that raises a connection error exactly on the second
batch of `ds3` and succeeds on every other request. -/
def httpFail2 : Request → HttpResult :=
  fun r =>
    if r.body = (mkRequest "u" "k" (batch3 1) 60).body then .exn "connection refused"
    else .resp 200 "" []

/-! ## Claims -/

/-- C1, counterexample.  The claim says every `chunk_size ≤ 0` raises a
configuration error before any batch is produced and before any network
call.  The code has no such check: with `chunk_size = 0` a one-document
dataset is sent in two singleton batches and the run completes normally, so
two network calls are made, batches are produced and no error is raised. -/
theorem C1_counterexample :
    (import_documents httpOk ds1 "http://es" "k" "p" "q" 0 60 false).1.length = 2 ∧
    (import_documents httpOk ds1 "http://es" "k" "p" "q" 0 60 false).2 =
      .ok { batches_sent := 2, failed := [] } :=
  ⟨rfl, rfl⟩

/-- C1, amended: for `chunk_size ≤ 0` no configuration error is raised;
instead the flush threshold `size * 2 ≤ 0` is met by every appended line, so
the Batcher degrades to one single-line batch per encoded line and the import
proceeds to make one network call per line. -/
theorem C1_amended (http : Request → HttpResult) (dataset : Dataset)
    (es_url api_key products_index promotions_index : String)
    (timeout : Nat) (skip_promotions : Bool) (chunk_size : Int) (hsz : chunk_size ≤ 0)
    (pl ml : List String)
    (hp : make_bulk_lines (dataset.products?.getD []) products_index = some pl)
    (hm : promotionLinesOf dataset promotions_index skip_promotions = some ml)
    (hall : ∀ l ∈ pl ++ ml, sendFails (http (mkRequest es_url api_key [l] timeout)) = false) :
    chunked chunk_size pl = pl.map (fun l => [l]) ∧
    import_documents http dataset es_url api_key products_index promotions_index
        chunk_size timeout skip_promotions =
      ((pl ++ ml).map (fun l => mkRequest es_url api_key [l] timeout),
       .ok { batches_sent := pl.length + ml.length
             failed := (runItems http es_url api_key timeout
               ((pl ++ ml).map (fun l => [l]))).filter itemFailed }) := by
  have h1 := chunked_nonpos chunk_size hsz pl
  have h2 := chunked_nonpos chunk_size hsz ml
  refine ⟨h1, ?_⟩
  have hall' : ∀ b ∈ chunked chunk_size pl ++ chunked chunk_size ml,
      sendFails (http (mkRequest es_url api_key b timeout)) = false := by
    intro b hb
    rw [h1, h2, ← List.map_append] at hb
    obtain ⟨l, hl, rfl⟩ := List.mem_map.mp hb
    exact hall l hl
  rw [import_documents_ok http dataset es_url api_key products_index promotions_index
      chunk_size timeout skip_promotions pl ml hp hm hall']
  rw [h1, h2]
  simp only [List.map_append, List.map_map, List.length_map]
  rfl

/-- C1, amended, witness: the singleton-batch behaviour evaluated on the
one-document dataset with `chunk_size = 0`. -/
theorem C1_amended_witness :
    chunked (0 : Int) plOfDs1 = plOfDs1.map (fun l => [l]) ∧
    import_documents httpOk ds1 "http://es" "k" "p" "q" 0 60 false =
      ((plOfDs1 ++ []).map (fun l => mkRequest "http://es" "k" [l] 60),
       .ok { batches_sent := plOfDs1.length + ([] : List String).length
             failed := (runItems httpOk "http://es" "k" 60
               ((plOfDs1 ++ []).map (fun l => [l]))).filter itemFailed }) :=
  C1_amended httpOk ds1 "http://es" "k" "p" "q" 60 false 0 (by decide) plOfDs1 []
    (by rfl) (by rfl) (fun l _ => rfl)

/-- C2: for `chunk_size c > 0` and `L` input lines the Batcher yields
`⌈L / (2c)⌉` batches (this is the claim's `ceil((L/2)/c)` over the
rationals), whose `i`-th batch holds `min(2c, L − 2c·i)` lines, and whose
in-order concatenation reconstructs the input exactly. -/
theorem C2 (c : Nat) (hc : 0 < c) (lines : List String) :
    (chunked ((c : Nat) : Int) lines).length = (lines.length + 2 * c - 1) / (2 * c) ∧
    (∀ (i : Nat) (h : i < (chunked ((c : Nat) : Int) lines).length),
       ((chunked ((c : Nat) : Int) lines).get ⟨i, h⟩).length =
         min (2 * c) (lines.length - 2 * c * i)) ∧
    (chunked ((c : Nat) : Int) lines).flatten = lines := by
  have hn : ((2 * c : Nat) : Int) = ((c : Nat) : Int) * 2 := by push_cast; ring
  have hpos : 0 < 2 * c := by omega
  refine ⟨chunked_length _ _ hn hpos lines, ?_, chunked_flatten _ _ hn hpos lines⟩
  intro i h
  rw [List.get_eq_getElem, chunked_getElem _ _ hn hpos lines i h]
  rw [List.length_take, List.length_drop]

/-- C2, witness: five lines at `c = 2` give batches of 4 and 1 lines that
concatenate back to the input. -/
theorem C2_witness :
    0 < 2 ∧
    ((chunked ((2 : Nat) : Int) ["a", "b", "c", "d", "e"]).length =
        (["a", "b", "c", "d", "e"].length + 2 * 2 - 1) / (2 * 2) ∧
     (∀ (i : Nat) (h : i < (chunked ((2 : Nat) : Int) ["a", "b", "c", "d", "e"]).length),
        ((chunked ((2 : Nat) : Int) ["a", "b", "c", "d", "e"]).get ⟨i, h⟩).length =
          min (2 * 2) (["a", "b", "c", "d", "e"].length - 2 * 2 * i)) ∧
     (chunked ((2 : Nat) : Int) ["a", "b", "c", "d", "e"]).flatten =
        ["a", "b", "c", "d", "e"]) :=
  ⟨by decide, C2 2 (by decide) ["a", "b", "c", "d", "e"]⟩

/-- C8: every batch of encoder output has an even line count of at most
`2c`, and each batch is itself the encoding of a contiguous block of `c`
documents, so no document's action/body pair is ever split across batches. -/
theorem C8 (recs : List Record) (idx : String) (c : Nat) (hc : 0 < c) (ls : List String)
    (henc : make_bulk_lines recs idx = some ls) :
    (∀ b ∈ chunked ((c : Nat) : Int) ls, b.length % 2 = 0 ∧ b.length ≤ 2 * c) ∧
    (∀ (i : Nat) (h : i < (chunked ((c : Nat) : Int) ls).length),
       make_bulk_lines ((recs.drop (c * i)).take c) idx =
         some ((chunked ((c : Nat) : Int) ls).get ⟨i, h⟩)) := by
  have hn : ((2 * c : Nat) : Int) = ((c : Nat) : Int) * 2 := by push_cast; ring
  have hpos : 0 < 2 * c := by omega
  unfold make_bulk_lines at henc
  cases he : encodeAll idx recs with
  | none => rw [he] at henc; simp at henc
  | some ps =>
      rw [he] at henc
      simp at henc
      have hpairs : ∀ p ∈ ps, p.length = 2 := encodeAll_pairs he
      have hsub : ∀ (m : Nat), ∀ q ∈ (ps.drop m).take c, q.length = 2 := by
        intro m q hq
        exact hpairs q (List.drop_subset _ _ (List.take_subset _ _ hq))
      have key : ∀ (i : Nat) (h : i < (chunked ((c : Nat) : Int) ls).length),
          (chunked ((c : Nat) : Int) ls)[i] = ((ps.drop (c * i)).take c).flatten := by
        intro i h
        rw [chunked_getElem _ _ hn hpos ls i h]
        rw [← henc]
        rw [show 2 * c * i = 2 * (c * i) by ring]
        rw [flatten_pairs_drop hpairs (c * i)]
        exact flatten_pairs_take (fun q hq => hpairs q (List.drop_subset _ _ hq)) c
      constructor
      · intro b hb
        obtain ⟨i, h, hbi⟩ := List.mem_iff_getElem.mp hb
        rw [← hbi, key i h]
        rw [flatten_pairs_length (hsub (c * i))]
        have hlen : ((ps.drop (c * i)).take c).length ≤ c := by
          rw [List.length_take]
          exact Nat.min_le_left _ _
        omega
      · intro i h
        unfold make_bulk_lines
        rw [encodeAll_take c (encodeAll_drop (c * i) he)]
        rw [List.get_eq_getElem, key i h]
        rfl

/-- C8, witness: three one-field documents at `c = 2` yield batches of 4 and
2 lines, each the encoding of the corresponding document block. -/
theorem C8_witness :
    0 < 2 ∧
    (make_bulk_lines [[("a", JsonV.num 1)], [("a", JsonV.num 2)], [("a", JsonV.num 3)]] "p" =
        some ((make_bulk_lines [[("a", JsonV.num 1)], [("a", JsonV.num 2)],
          [("a", JsonV.num 3)]] "p").getD [])) ∧
    ((∀ b ∈ chunked ((2 : Nat) : Int)
          ((make_bulk_lines [[("a", JsonV.num 1)], [("a", JsonV.num 2)],
            [("a", JsonV.num 3)]] "p").getD []),
        b.length % 2 = 0 ∧ b.length ≤ 2 * 2) ∧
     (∀ (i : Nat) (h : i < (chunked ((2 : Nat) : Int)
          ((make_bulk_lines [[("a", JsonV.num 1)], [("a", JsonV.num 2)],
            [("a", JsonV.num 3)]] "p").getD [])).length),
        make_bulk_lines (([[("a", JsonV.num 1)], [("a", JsonV.num 2)],
            [("a", JsonV.num 3)]].drop (2 * i)).take 2) "p" =
          some ((chunked ((2 : Nat) : Int)
            ((make_bulk_lines [[("a", JsonV.num 1)], [("a", JsonV.num 2)],
              [("a", JsonV.num 3)]] "p").getD [])).get ⟨i, h⟩))) :=
  ⟨by decide, rfl,
    C8 [[("a", JsonV.num 1)], [("a", JsonV.num 2)], [("a", JsonV.num 3)]] "p" 2 (by decide)
      ((make_bulk_lines [[("a", JsonV.num 1)], [("a", JsonV.num 2)],
        [("a", JsonV.num 3)]] "p").getD []) rfl⟩

/-- C3: for every Record and destination index the Line Encoder yields
exactly two lines, the action line (serialized `bulkMeta`) first and the
serialized Record second; the action line carries `_id` iff the Record has a
non-empty identity field, checking `product_id` before `promotion_id` with
the first non-empty (truthy) value winning. -/
theorem C3 (doc : Record) (idx : String) :
    (∀ ls, make_bulk_lines [doc] idx = some ls →
       ∃ m b, dumps (bulkMeta doc idx) = some m ∧ dumps (.obj doc) = some b ∧ ls = [m, b]) ∧
    metaIdField (bulkMeta doc idx) = identitySpec doc ∧
    ((metaIdField (bulkMeta doc idx)).isSome = true ↔
      (∃ v, getField doc "product_id" = some v ∧ v.truthy = true) ∨
      (∃ w, getField doc "promotion_id" = some w ∧ w.truthy = true)) := by
  refine ⟨fun ls h => make_bulk_lines_single h, metaIdField_bulkMeta doc idx, ?_⟩
  rw [metaIdField_bulkMeta doc idx]
  unfold identitySpec
  cases hp : getField doc "product_id" with
  | some v =>
      by_cases hv : v.truthy
      · simp [hp, hv]
      · simp only [hv, Bool.false_eq_true, if_false]
        cases hq : getField doc "promotion_id" with
        | some w =>
            by_cases hw : w.truthy
            · simp [hp, hq, hv, hw]
            · simp [hp, hq, hv, hw]
        | none => simp [hp, hq, hv]
  | none =>
      cases hq : getField doc "promotion_id" with
      | some w =>
          by_cases hw : w.truthy
          · simp [hp, hq, hw]
          · simp [hp, hq, hw]
      | none => simp [hp, hq]

/-- C3, witness: a product document with identity `"A"` evaluated through
the encoder contract. -/
theorem C3_witness :
    (∀ ls, make_bulk_lines [[("product_id", JsonV.str "A")]] "p" = some ls →
       ∃ m b, dumps (bulkMeta [("product_id", JsonV.str "A")] "p") = some m ∧
         dumps (.obj [("product_id", JsonV.str "A")]) = some b ∧ ls = [m, b]) ∧
    metaIdField (bulkMeta [("product_id", JsonV.str "A")] "p") =
      identitySpec [("product_id", JsonV.str "A")] ∧
    ((metaIdField (bulkMeta [("product_id", JsonV.str "A")] "p")).isSome = true ↔
      (∃ v, getField [("product_id", JsonV.str "A")] "product_id" = some v ∧ v.truthy = true) ∨
      (∃ w, getField [("product_id", JsonV.str "A")] "promotion_id" = some w ∧
        w.truthy = true)) :=
  C3 [("product_id", JsonV.str "A")] "p"

/-- C10: when both identity fields are present but falsy (Python-empty), the
action line carries no `_id`, while the body line is the serialization of the
unchanged Record and still contains both fields' `"key": value` text
verbatim. -/
theorem C10 (doc : Record) (idx : String) (v w : JsonV)
    (hv : getField doc "product_id" = some v) (hvf : v.truthy = false)
    (hw : getField doc "promotion_id" = some w) (hwf : w.truthy = false) :
    bulkMeta doc idx = .obj [("index", .obj [("_index", .str idx)])] ∧
    (∀ ls, make_bulk_lines [doc] idx = some ls →
       ∃ m b, dumps (bulkMeta doc idx) = some m ∧ dumps (.obj doc) = some b ∧ ls = [m, b]) ∧
    (∀ bs, dumps (.obj doc) = some bs →
       (∀ vs, dumps v = some vs →
          ∃ s1 s2, bs = s1 ++ (encodeStr "product_id" ++ ": " ++ vs) ++ s2) ∧
       (∀ ws, dumps w = some ws →
          ∃ s1 s2, bs = s1 ++ (encodeStr "promotion_id" ++ ": " ++ ws) ++ s2)) := by
  refine ⟨?_, fun ls h => make_bulk_lines_single h, ?_⟩
  · simp [bulkMeta, docIdOf, hv, hvf, hw, hwf]
  · intro bs hbs
    obtain ⟨parts, hparts, rfl⟩ := dumps_obj_shape hbs
    constructor
    · intro vs hvs
      have hmem := dumpsObj_mem hparts (getField_mem hv) hvs
      obtain ⟨s1, s2, hs⟩ := joinSep_mem_split ", " parts _ hmem
      refine ⟨"\x7b" ++ s1, s2 ++ "\x7d", ?_⟩
      rw [hs]
      simp [String.append_assoc]
    · intro ws hws
      have hmem := dumpsObj_mem hparts (getField_mem hw) hws
      obtain ⟨s1, s2, hs⟩ := joinSep_mem_split ", " parts _ hmem
      refine ⟨"\x7b" ++ s1, s2 ++ "\x7d", ?_⟩
      rw [hs]
      simp [String.append_assoc]

/-- C10, witness: a record with `product_id = ""` and `promotion_id = null`
keeps both fields in the body line but gets no `_id`. -/
theorem C10_witness :
    bulkMeta [("product_id", JsonV.str ""), ("promotion_id", JsonV.null),
        ("name", JsonV.str "n")] "p" =
      .obj [("index", .obj [("_index", .str "p")])] ∧
    (∀ ls, make_bulk_lines [[("product_id", JsonV.str ""), ("promotion_id", JsonV.null),
        ("name", JsonV.str "n")]] "p" = some ls →
       ∃ m b, dumps (bulkMeta [("product_id", JsonV.str ""), ("promotion_id", JsonV.null),
           ("name", JsonV.str "n")] "p") = some m ∧
         dumps (.obj [("product_id", JsonV.str ""), ("promotion_id", JsonV.null),
           ("name", JsonV.str "n")]) = some b ∧ ls = [m, b]) ∧
    (∀ bs, dumps (.obj [("product_id", JsonV.str ""), ("promotion_id", JsonV.null),
        ("name", JsonV.str "n")]) = some bs →
       (∀ vs, dumps (JsonV.str "") = some vs →
          ∃ s1 s2, bs = s1 ++ (encodeStr "product_id" ++ ": " ++ vs) ++ s2) ∧
       (∀ ws, dumps JsonV.null = some ws →
          ∃ s1 s2, bs = s1 ++ (encodeStr "promotion_id" ++ ": " ++ ws) ++ s2)) :=
  C10 [("product_id", JsonV.str ""), ("promotion_id", JsonV.null), ("name", JsonV.str "n")]
    "p" (JsonV.str "") JsonV.null rfl (by decide) rfl (by decide)

/-- C4: on a completed run the summary's failed list is exactly the in-order
filter of all accumulated per-item outcomes of both collections' batches: an
item is classified failed iff it carries a non-empty error detail under the
`index` key, everything else counts as success, and the filter preserves
submission order and multiplicity (no deduplication, `Sublist` of the full
item sequence). -/
theorem C4 (http : Request → HttpResult) (dataset : Dataset)
    (es_url api_key products_index promotions_index : String)
    (chunk_size : Int) (timeout : Nat) (skip_promotions : Bool)
    (pl ml : List String)
    (hp : make_bulk_lines (dataset.products?.getD []) products_index = some pl)
    (hm : promotionLinesOf dataset promotions_index skip_promotions = some ml)
    (hall : ∀ b ∈ chunked chunk_size pl ++ chunked chunk_size ml,
      sendFails (http (mkRequest es_url api_key b timeout)) = false) :
    ∃ s, (import_documents http dataset es_url api_key products_index promotions_index
        chunk_size timeout skip_promotions).2 = .ok s ∧
      s.failed = (runItems http es_url api_key timeout
        (chunked chunk_size pl ++ chunked chunk_size ml)).filter itemFailed ∧
      s.failed.Sublist (runItems http es_url api_key timeout
        (chunked chunk_size pl ++ chunked chunk_size ml)) ∧
      (∀ item, itemFailed item = true ↔ failedSpecP item) := by
  have hok := import_documents_ok http dataset es_url api_key products_index promotions_index
    chunk_size timeout skip_promotions pl ml hp hm hall
  refine ⟨_, by rw [hok], rfl, ?_, itemFailed_iff⟩
  exact List.filter_sublist _

/-- C4, witness: five documents in one batch, the response marking the third
item failed; the summary keeps exactly that item. -/
theorem C4_witness :
    ∃ s, (import_documents httpItems ds5 "u" "k" "p" "q" 5 60 false).2 = .ok s ∧
      s.failed = (runItems httpItems "u" "k" 60
        (chunked (5 : Int) plOfDs5 ++ chunked (5 : Int) [])).filter itemFailed ∧
      s.failed.Sublist (runItems httpItems "u" "k" 60
        (chunked (5 : Int) plOfDs5 ++ chunked (5 : Int) [])) ∧
      (∀ item, itemFailed item = true ↔ failedSpecP item) :=
  C4 httpItems ds5 "u" "k" "p" "q" 5 60 false plOfDs5 [] rfl rfl (fun _ _ => rfl)

/-- C5: a completed run issues exactly one request per batch, in batch
order; every request built for a batch has as body the batch's lines joined
by newlines plus a trailing newline, NDJSON content type, and an
`ApiKey`-scheme authorization header. -/
theorem C5 (http : Request → HttpResult) (dataset : Dataset)
    (es_url api_key products_index promotions_index : String)
    (chunk_size : Int) (timeout : Nat) (skip_promotions : Bool)
    (pl ml : List String)
    (hp : make_bulk_lines (dataset.products?.getD []) products_index = some pl)
    (hm : promotionLinesOf dataset promotions_index skip_promotions = some ml)
    (hall : ∀ b ∈ chunked chunk_size pl ++ chunked chunk_size ml,
      sendFails (http (mkRequest es_url api_key b timeout)) = false) :
    (import_documents http dataset es_url api_key products_index promotions_index
        chunk_size timeout skip_promotions).1 =
      (chunked chunk_size pl ++ chunked chunk_size ml).map
        (fun b => mkRequest es_url api_key b timeout) ∧
    ∀ b : List String,
      (mkRequest es_url api_key b timeout).body = joinSep "\n" b ++ "\n" ∧
      (mkRequest es_url api_key b timeout).headers =
        [("Content-Type", "application/x-ndjson"), ("Authorization", "ApiKey " ++ api_key)] := by
  constructor
  · rw [import_documents_ok http dataset es_url api_key products_index promotions_index
      chunk_size timeout skip_promotions pl ml hp hm hall]
  · exact fun b => ⟨rfl, rfl⟩

/-- C5, witness: the one-document dataset at `c = 1` issues exactly one
request with the NDJSON body and headers. -/
theorem C5_witness :
    (import_documents httpOk ds1 "http://es/" "k" "p" "q" 1 60 false).1 =
      (chunked (1 : Int) plOfDs1 ++ chunked (1 : Int) []).map
        (fun b => mkRequest "http://es/" "k" b 60) ∧
    ∀ b : List String,
      (mkRequest "http://es/" "k" b 60).body = joinSep "\n" b ++ "\n" ∧
      (mkRequest "http://es/" "k" b 60).headers =
        [("Content-Type", "application/x-ndjson"), ("Authorization", "ApiKey " ++ "k")] :=
  C5 httpOk ds1 "http://es/" "k" "p" "q" 1 60 false plOfDs1 [] rfl rfl (fun _ _ => rfl)

/-- C6, counterexample.  The claim calls every non-2xx response fatal, but
`raise_for_status` only raises for 4xx/5xx: a `304` response mid-run is
accepted, the run completes and prints a summary instead of aborting. -/
theorem C6_counterexample :
    (import_documents http304 ds1 "u" "k" "p" "q" 1 60 false).2 =
      .ok { batches_sent := 1, failed := [] } ∧
    (import_documents http304 ds1 "u" "k" "p" "q" 1 60 false).1.length = 1 :=
  ⟨rfl, rfl⟩

/-- C6, amended: if a Transport call raises (connection failure / timeout)
or returns a 4xx/5xx status, the run aborts at that batch: every earlier
batch was sent (and is not undone), the failing batch was attempted, no
later batch is sent, no summary is produced (`.error`), and for an HTTP
error status the message carries the raw response body after a newline. -/
theorem C6_amended (http : Request → HttpResult) (dataset : Dataset)
    (es_url api_key products_index promotions_index : String)
    (chunk_size : Int) (timeout : Nat) (skip_promotions : Bool)
    (pl ml : List String) (pre : List (List String)) (bad : List String)
    (post : List (List String))
    (hp : make_bulk_lines (dataset.products?.getD []) products_index = some pl)
    (hm : promotionLinesOf dataset promotions_index skip_promotions = some ml)
    (hsplit : chunked chunk_size pl ++ chunked chunk_size ml = pre ++ bad :: post)
    (hpre : ∀ b ∈ pre, sendFails (http (mkRequest es_url api_key b timeout)) = false)
    (hbad : sendFails (http (mkRequest es_url api_key bad timeout)) = true) :
    import_documents http dataset es_url api_key products_index promotions_index
        chunk_size timeout skip_promotions =
      (pre.map (fun b => mkRequest es_url api_key b timeout) ++
         [mkRequest es_url api_key bad timeout],
       .error (sendError (http (mkRequest es_url api_key bad timeout)))) ∧
    (∀ status text j, http (mkRequest es_url api_key bad timeout) = .resp status text j →
       ∃ s1, sendError (http (mkRequest es_url api_key bad timeout)) =
         .httpStatus (s1 ++ "\n" ++ text)) := by
  refine ⟨import_documents_err http dataset es_url api_key products_index promotions_index
    chunk_size timeout skip_promotions pl ml pre bad post hp hm hsplit hpre hbad, ?_⟩
  intro status text j hresp
  rw [hresp]
  exact ⟨"Bulk request failed: " ++ toString status, rfl⟩

/-- C6, amended, witness: three one-document batches, the transport raising
a connection error on the second; batch 1 is sent, batch 2 attempted, batch
3 never sent, and the run ends in the network error with no summary. -/
theorem C6_amended_witness :
    import_documents httpFail2 ds3 "u" "k" "p" "q" 1 60 false =
      ([batch3 0].map (fun b => mkRequest "u" "k" b 60) ++
         [mkRequest "u" "k" (batch3 1) 60],
       .error (sendError (httpFail2 (mkRequest "u" "k" (batch3 1) 60)))) ∧
    (∀ status text j, httpFail2 (mkRequest "u" "k" (batch3 1) 60) = .resp status text j →
       ∃ s1, sendError (httpFail2 (mkRequest "u" "k" (batch3 1) 60)) =
         .httpStatus (s1 ++ "\n" ++ text)) :=
  C6_amended httpFail2 ds3 "u" "k" "p" "q" 1 60 false plOfDs3 [] [batch3 0] (batch3 1)
    [batch3 2] rfl rfl rfl
    (fun b hb => by rw [List.mem_singleton.mp hb]; rfl) rfl

/-- C7: `batches_sent` equals the number of requests actually issued on any
completed run; with `skip_promotions` set only the product batches are sent
even if the dataset has promotions; and two empty collections send zero
batches. -/
theorem C7 (http : Request → HttpResult) (dataset : Dataset)
    (es_url api_key products_index promotions_index : String)
    (chunk_size : Int) (timeout : Nat) (skip_promotions : Bool) :
    (∀ s, (import_documents http dataset es_url api_key products_index promotions_index
         chunk_size timeout skip_promotions).2 = .ok s →
       s.batches_sent = (import_documents http dataset es_url api_key products_index
         promotions_index chunk_size timeout skip_promotions).1.length) ∧
    (skip_promotions = true → ∀ pl,
       make_bulk_lines (dataset.products?.getD []) products_index = some pl →
       (∀ b ∈ chunked chunk_size pl,
         sendFails (http (mkRequest es_url api_key b timeout)) = false) →
       import_documents http dataset es_url api_key products_index promotions_index
           chunk_size timeout skip_promotions =
         ((chunked chunk_size pl).map (fun b => mkRequest es_url api_key b timeout),
          .ok { batches_sent := (chunked chunk_size pl).length
                failed := (runItems http es_url api_key timeout
                  (chunked chunk_size pl)).filter itemFailed })) ∧
    (dataset.products?.getD [] = [] → promotionsOf dataset skip_promotions = [] →
       import_documents http dataset es_url api_key products_index promotions_index
           chunk_size timeout skip_promotions = ([], .ok { batches_sent := 0, failed := [] })) := by
  refine ⟨fun s hs => import_documents_count http dataset es_url api_key products_index
    promotions_index chunk_size timeout skip_promotions s hs, ?_, ?_⟩
  · intro hskip pl hp hall
    subst hskip
    have hm : promotionLinesOf dataset promotions_index true = some [] := rfl
    have hall' : ∀ b ∈ chunked chunk_size pl ++ chunked chunk_size ([] : List String),
        sendFails (http (mkRequest es_url api_key b timeout)) = false := by
      intro b hb
      rw [show chunked chunk_size ([] : List String) = [] from rfl, List.append_nil] at hb
      exact hall b hb
    rw [import_documents_ok http dataset es_url api_key products_index promotions_index
      chunk_size timeout true pl [] hp hm hall']
    rw [show chunked chunk_size ([] : List String) = [] from rfl]
    simp
  · intro h1 h2
    unfold import_documents
    rw [h1]
    have hm : promotionLinesOf dataset promotions_index skip_promotions = some [] := by
      unfold promotionLinesOf
      rw [h2]
      rfl
    rw [hm]
    rfl

/-- C7, witness: `skip_promotions = true` on the one-document dataset sends
exactly the product batch. -/
theorem C7_witness :
    import_documents httpOk ds1 "u" "k" "p" "q" 1 60 true =
      ((chunked (1 : Int) plOfDs1).map (fun b => mkRequest "u" "k" b 60),
       .ok { batches_sent := (chunked (1 : Int) plOfDs1).length
             failed := (runItems httpOk "u" "k" 60
               (chunked (1 : Int) plOfDs1)).filter itemFailed }) :=
  (C7 httpOk ds1 "u" "k" "p" "q" 1 60 true).2.1 rfl plOfDs1 rfl (fun _ _ => rfl)

/-- C9: the orchestrator materializes both collections' lines before the
first Transport call, so a serialization failure in either collection (the
products, or the promotions even when the products encode fine) aborts the
run with an empty request trace: zero batches sent, no network activity. -/
theorem C9 (http : Request → HttpResult) (dataset : Dataset)
    (es_url api_key products_index promotions_index : String)
    (chunk_size : Int) (timeout : Nat) (skip_promotions : Bool) :
    (make_bulk_lines (dataset.products?.getD []) products_index = none →
       import_documents http dataset es_url api_key products_index promotions_index
         chunk_size timeout skip_promotions = ([], .error .serialization)) ∧
    (promotionLinesOf dataset promotions_index skip_promotions = none →
       import_documents http dataset es_url api_key products_index promotions_index
         chunk_size timeout skip_promotions = ([], .error .serialization)) :=
  ⟨fun h => import_documents_serProducts http dataset es_url api_key products_index
      promotions_index chunk_size timeout skip_promotions h,
   fun h => import_documents_serPromotions http dataset es_url api_key products_index
      promotions_index chunk_size timeout skip_promotions h⟩

/-- C9, witness: a dataset whose products encode fine but whose promotions
hold a non-serializable value produces no request at all. -/
theorem C9_witness :
    import_documents httpOk ⟨some [[]], some [[("x", JsonV.blob "o")]]⟩ "u" "k" "p" "q"
      1 60 false = ([], .error .serialization) :=
  (C9 httpOk ⟨some [[]], some [[("x", JsonV.blob "o")]]⟩ "u" "k" "p" "q" 1 60 false).2 rfl

end Omni
